import Mathlib

/-!
# Verification of the vampirc-uci message model and encoder

This file gives a shallow embedding of `src/uci.rs` from the `vampirc-uci`
repository: the UCI message model (`UciMessage` and its substructures) and the
operations `serialize`, `direction`, `as_bool`, `as_i32`, `UciPiece.as_char`
and `UciPiece.from_str`, together with theorems settling the specification
claims about them.

Rust `String` values are embedded as Lean `String`; the machine integers
`u64`/`u8` are embedded as `Nat` (serialization only reads their decimal
rendering, which agrees with `toString : Nat → String` on the shared domain);
`Option<T>` becomes `Option`, `Vec<T>` becomes `List`, and the fallible
`FromStr` implementations return `Except Unit _` / `Option _`.
-/

namespace VampircUci

/-- Specifies whether a message is engine- or GUI-bound (`CommunicationDirection`). -/
inductive CommunicationDirection where
  | GuiToEngine
  | EngineToGui
deriving DecidableEq, Repr

/-- The chess piece types (`UciPiece`). -/
inductive UciPiece where
  | Pawn
  | Knight
  | Bishop
  | Rook
  | Queen
  | King
deriving DecidableEq, Repr

/-- `UciPiece::as_char`: the UCI promotion letter of a piece; `none` for a pawn. -/
def UciPiece.as_char : UciPiece → Option Char
  | .Pawn => none
  | .Knight => some 'n'
  | .Bishop => some 'b'
  | .Rook => some 'r'
  | .Queen => some 'q'
  | .King => some 'k'

/-- Rust's `str::to_ascii_lowercase`, used by `UciPiece::from_str`: lower-case
every basic-latin capital letter, leave all other characters unchanged.
`Char.toLower` performs exactly this ASCII-only mapping. -/
def toAsciiLowercase (s : String) : String :=
  ⟨s.data.map Char.toLower⟩

/-- `impl FromStr for UciPiece`: match the lower-cased input against the six
one-letter piece names; any other input is an error (`FmtError`, embedded as
`Unit`). -/
def UciPiece.from_str (s : String) : Except Unit UciPiece :=
  let l := toAsciiLowercase s
  if l = "n" then .ok .Knight
  else if l = "p" then .ok .Pawn
  else if l = "b" then .ok .Bishop
  else if l = "r" then .ok .Rook
  else if l = "k" then .ok .King
  else if l = "q" then .ok .Queen
  else .error ()

/-- A chessboard square (`UciSquare`): a file character and a rank number. -/
structure UciSquare where
  file : Char
  rank : Nat
deriving DecidableEq, Repr

/-- `impl Display for UciSquare`: the file character immediately followed by
the rank number. -/
def UciSquare.display (sq : UciSquare) : String :=
  String.singleton sq.file ++ toString sq.rank

/-- A chess move (`UciMove`): source square, destination square, optional
promotion piece. (`from`/`to` are Lean keywords, hence `fromSq`/`toSq`.) -/
structure UciMove where
  fromSq : UciSquare
  toSq : UciSquare
  promotion : Option UciPiece
deriving DecidableEq, Repr

/-- `impl Display for UciMove`: render `from` and `to`, then the promotion
letter when a promotion piece is present and has a letter. -/
def UciMove.display (m : UciMove) : String :=
  m.fromSq.display ++ m.toSq.display ++
    (match m.promotion with
     | some p =>
       (match p.as_char with
        | some c => String.singleton c
        | none => "")
     | none => "")

/-- The FEN wrapper (`UciFen`), an unvalidated string. -/
structure UciFen where
  fen : String
deriving DecidableEq, Repr

/-- `UciFen::as_str`: the wrapped FEN string. -/
def UciFen.as_str (f : UciFen) : String := f.fen

/-- The `go` time-control variants (`UciTimeControl`). The `TimeLeft` fields
are, in order: `white_time`, `black_time`, `white_increment`,
`black_increment` (all `u64` milliseconds) and `moves_to_go` (`u8`). -/
inductive UciTimeControl where
  | Ponder
  | Infinite
  | TimeLeft (white_time black_time white_increment black_increment : Option Nat)
      (moves_to_go : Option Nat)
  | MoveTime (milliseconds : Nat)
deriving DecidableEq, Repr

/-- The `go` search-control settings (`UciSearchControl`). -/
structure UciSearchControl where
  search_moves : List UciMove
  mate : Option Nat
  depth : Option Nat
  nodes : Option Nat
deriving DecidableEq, Repr

/-- The UCI message model (`UciMessage`), one constructor per protocol
command, engine-bound constructors first. -/
inductive UciMessage where
  | Uci
  | Debug (enabled : Bool)
  | IsReady
  | Register (later : Bool) (name : Option String) (code : Option String)
  | Position (startpos : Bool) (fen : Option UciFen) (moves : List UciMove)
  | SetOption (name : String) (value : Option String)
  | UciNewGame
  | Stop
  | PonderHit
  | Quit
  | Go (time_control : Option UciTimeControl)
      (search_control : Option UciSearchControl)
  | Id (name : Option String) (author : Option String)
  | UciOk
  | ReadyOk
  | BestMove (best_move : UciMove) (ponder : Option UciMove)
deriving DecidableEq, Repr

/-- The indexed loop of the `Position` arm of `serialize`: each move's
rendering, with a `" "` appended after every move except the last. -/
def serializeMoveList : List UciMove → String
  | [] => ""
  | [m] => m.display
  | m :: rest => m.display ++ " " ++ serializeMoveList rest

/-- The `searchmoves` loop of the `Go` arm of `serialize`: each move's
rendering with a `" "` appended after every move, the last included. -/
def serializeSearchMoves : List UciMove → String
  | [] => ""
  | m :: rest => m.display ++ " " ++ serializeSearchMoves rest

/-- The time-control block of the `Go` arm of `serialize`, exactly as in the
source: note the `"bt "` (not `"btime "`) token for `black_time`. -/
def serializeTimeControl : UciTimeControl → String
  | .Infinite => "infinite "
  | .Ponder => "ponder "
  | .MoveTime ms => "movetime " ++ toString ms ++ " "
  | .TimeLeft wt bt wi bi mtg =>
      (match wt with | some x => "wtime " ++ toString x ++ " " | none => "") ++
      (match bt with | some x => "bt " ++ toString x ++ " " | none => "") ++
      (match wi with | some x => "winc " ++ toString x ++ " " | none => "") ++
      (match bi with | some x => "binc " ++ toString x ++ " " | none => "") ++
      (match mtg with | some x => "movestogo " ++ toString x ++ " " | none => "")

/-- The search-control block of the `Go` arm of `serialize`, exactly as in the
source: `depth`, `nodes`, `mate` tokens with trailing spaces, then — when
`search_moves` is non-empty — the literal `" searchmoves "` (with a leading
space) followed by the moves, each with a trailing space. -/
def serializeSearchControl (sc : UciSearchControl) : String :=
  (match sc.depth with | some d => "depth " ++ toString d ++ " " | none => "") ++
  (match sc.nodes with | some n => "nodes " ++ toString n ++ " " | none => "") ++
  (match sc.mate with | some m => "mate " ++ toString m ++ " " | none => "") ++
  (if sc.search_moves.isEmpty then ""
   else " searchmoves " ++ serializeSearchMoves sc.search_moves)

/-- `UciMessage::serialize`, translated arm by arm from the source; the
imperative `s += …` chains become string concatenations in the same order. -/
def UciMessage.serialize : UciMessage → String
  | .Debug enabled => if enabled then "debug on" else "debug off"
  | .Register later name code =>
      if later then "register later"
      else
        "register " ++
        (match name with
         | some n => "name " ++ n ++ (if code.isSome then " " else "")
         | none => "") ++
        (match code with | some c => "code " ++ c | none => "")
  | .Position startpos fen moves =>
      "position " ++
      (if startpos then "startpos"
       else match fen with
            | some f => "fen " ++ f.as_str
            | none => "") ++
      (if moves.length > 0 then " moves " ++ serializeMoveList moves else "")
  | .SetOption name value =>
      "setoption name " ++ name ++
      (match value with | some v => " value " ++ v | none => "")
  | .Go tc sc =>
      "go " ++
      (match tc with | some t => serializeTimeControl t | none => "") ++
      (match sc with | some s => serializeSearchControl s | none => "")
  | .Uci => "uci"
  | .IsReady => "isready"
  | .UciNewGame => "ucinewgame"
  | .Stop => "stop"
  | .PonderHit => "ponderhit"
  | .Quit => "quit"
  | .Id name author =>
      "id " ++
      (match name with
       | some n => "name " ++ n
       | none =>
         match author with
         | some a => "author " ++ a
         | none => "")
  | .UciOk => "uciok"
  | .ReadyOk => "readyok"
  | .BestMove best_move ponder =>
      "bestmove " ++ best_move.display ++
      (match ponder with | some p => " ponder " ++ p.display | none => "")

/-- `UciMessage::direction`: the eleven engine-bound constructors map to
`GuiToEngine`, everything else (the catch-all arm) to `EngineToGui`. -/
def UciMessage.direction : UciMessage → CommunicationDirection
  | .Uci => .GuiToEngine
  | .Debug _ => .GuiToEngine
  | .IsReady => .GuiToEngine
  | .Register _ _ _ => .GuiToEngine
  | .Position _ _ _ => .GuiToEngine
  | .SetOption _ _ => .GuiToEngine
  | .UciNewGame => .GuiToEngine
  | .Stop => .GuiToEngine
  | .PonderHit => .GuiToEngine
  | .Quit => .GuiToEngine
  | .Go _ _ => .GuiToEngine
  | _ => .EngineToGui

/-- Rust's `bool::from_str`, the parser invoked by `as_bool`: exactly the
strings `"true"` and `"false"` succeed. -/
def parseRustBool (s : String) : Option Bool :=
  if s = "true" then some true
  else if s = "false" then some false
  else none

/-- Rust's `i32::from_str`, the parser invoked by `as_i32`: an optional single
leading `+`/`-` sign, then one or more ASCII digits and nothing else, with the
resulting value required to fit in `i32`. -/
def parseRustI32 (s : String) : Option Int :=
  match s.data with
  | [] => none
  | c :: rest =>
    let digits := if c = '+' ∨ c = '-' then rest else c :: rest
    if digits.isEmpty then none
    else if digits.all Char.isDigit then
      let v : Nat := digits.foldl (fun a d => a * 10 + (d.toNat - 48)) 0
      let i : Int := if c = '-' then -(v : Int) else (v : Int)
      if -(2 ^ 31) ≤ i ∧ i ≤ 2 ^ 31 - 1 then some i else none
    else none

/-- `UciMessage::as_bool`: on a `SetOption` with a present value, the result
of parsing it as a `bool`; `none` in every other case. -/
def UciMessage.as_bool : UciMessage → Option Bool
  | .SetOption _ value =>
      (match value with
       | some val =>
         (match parseRustBool val with
          | some b => some b
          | none => none)
       | none => none)
  | _ => none

/-- `UciMessage::as_i32`: on a `SetOption` with a present value, the result of
parsing it as an `i32`; `none` in every other case. -/
def UciMessage.as_i32 : UciMessage → Option Int
  | .SetOption _ value =>
      (match value with
       | some val =>
         (match parseRustI32 val with
          | some i => some i
          | none => none)
       | none => none)
  | _ => none

/-! ## Claim-side definitions

The following definitions are written from the wording of the specification
claims (not from the source); the theorems below compare them with the
embedded source functions. -/

/-- Claim wording: a keyword token for a present numeric sub-field, the token
followed by a trailing space; an absent sub-field contributes no token. -/
def optTokenSpec (kw : String) : Option Nat → String
  | some n => kw ++ " " ++ toString n ++ " "
  | none => ""

/-- Claim wording: each element followed by a trailing space, the last
included. -/
def joinTrailingSpace : List String → String
  | [] => ""
  | x :: rest => x ++ " " ++ joinTrailingSpace rest

/-- Claim wording: the elements space-separated, in sequence order. -/
def spaceSeparated : List String → String
  | [] => ""
  | [x] => x
  | x :: rest => x ++ " " ++ spaceSeparated rest

/-- C1's time-control tokens as the claim states them: `infinite` / `ponder` /
`movetime <ms>` / the present subset of `wtime/btime/winc/binc/movestogo`,
each token with a trailing space. -/
def goSpecTime : Option UciTimeControl → String
  | none => ""
  | some .Infinite => "infinite "
  | some .Ponder => "ponder "
  | some (.MoveTime ms) => "movetime " ++ toString ms ++ " "
  | some (.TimeLeft wt bt wi bi mtg) =>
      optTokenSpec "wtime" wt ++ optTokenSpec "btime" bt ++
      optTokenSpec "winc" wi ++ optTokenSpec "binc" bi ++
      optTokenSpec "movestogo" mtg

/-- C1's search-control tokens as the claim states them: `depth`, `nodes`,
`mate` with trailing spaces, then — when `search_moves` is non-empty — the
token `"searchmoves "` followed by each move with a trailing space. -/
def goSpecSearch : Option UciSearchControl → String
  | none => ""
  | some sc =>
      optTokenSpec "depth" sc.depth ++ optTokenSpec "nodes" sc.nodes ++
      optTokenSpec "mate" sc.mate ++
      (if sc.search_moves = [] then ""
       else "searchmoves " ++ joinTrailingSpace (sc.search_moves.map UciMove.display))

/-- C1 as stated: `"go "` followed by the time-control tokens and then the
search-control tokens. -/
def goSpec (tc : Option UciTimeControl) (sc : Option UciSearchControl) : String :=
  "go " ++ goSpecTime tc ++ goSpecSearch sc

/-- C1 amended in the time-control part: the `black_time` token is spelled
`bt`, as the code emits it (this is the quirk recorded by C2). -/
def goSpecTimeAmended : Option UciTimeControl → String
  | none => ""
  | some .Infinite => "infinite "
  | some .Ponder => "ponder "
  | some (.MoveTime ms) => "movetime " ++ toString ms ++ " "
  | some (.TimeLeft wt bt wi bi mtg) =>
      optTokenSpec "wtime" wt ++ optTokenSpec "bt" bt ++
      optTokenSpec "winc" wi ++ optTokenSpec "binc" bi ++
      optTokenSpec "movestogo" mtg

/-- C1 amended in the search-control part: the `searchmoves` token is
preceded by one extra space, i.e. the code appends `" searchmoves "`. -/
def goSpecSearchAmended : Option UciSearchControl → String
  | none => ""
  | some sc =>
      optTokenSpec "depth" sc.depth ++ optTokenSpec "nodes" sc.nodes ++
      optTokenSpec "mate" sc.mate ++
      (if sc.search_moves = [] then ""
       else " " ++ "searchmoves " ++ joinTrailingSpace (sc.search_moves.map UciMove.display))

/-- C1 amended: as `goSpec`, with the `bt` spelling and the extra space
before `searchmoves`. -/
def goSpecAmended (tc : Option UciTimeControl) (sc : Option UciSearchControl) : String :=
  "go " ++ goSpecTimeAmended tc ++ goSpecSearchAmended sc

/-- C2: everything the `Go` serialization emits before the black time-left
token, when the time control is a `TimeLeft`. -/
def btPrefix (wt : Option Nat) : String :=
  "go " ++ optTokenSpec "wtime" wt

/-- C2: everything the `Go` serialization emits after the black time-left
token, when the time control is a `TimeLeft`. -/
def btSuffix (wi bi mtg : Option Nat) (sc : Option UciSearchControl) : String :=
  optTokenSpec "winc" wi ++ optTokenSpec "binc" bi ++
  optTokenSpec "movestogo" mtg ++
  (match sc with | some s => serializeSearchControl s | none => "")

/-- C3 as stated: `later = true` short-circuits to `"register later"`;
otherwise `register` is followed by the present parts `name <name>` and
`code <code>` in that order, with a single separating space between them
only when both are present. -/
def registerSpec (later : Bool) (name code : Option String) : String :=
  if later then "register later"
  else
    "register " ++
      spaceSeparated ((name.map fun n => "name " ++ n).toList ++
        (code.map fun c => "code " ++ c).toList)

/-- C4 as stated: `position startpos` / `position fen <fen>` / bare
`position`, then, when `moves` is non-empty, `" moves "` followed by the
moves' renderings, space-separated, in order. -/
def positionSpec (startpos : Bool) (fen : Option UciFen) (moves : List UciMove) : String :=
  (if startpos then "position startpos"
   else match fen with
        | some f => "position fen " ++ f.as_str
        | none => "position") ++
  (if moves = [] then "" else " moves " ++ spaceSeparated (moves.map UciMove.display))

/-- C4 amended: in the bare case (no `startpos`, no FEN) the output is
`"position "` with a trailing space, not `"position"` alone. -/
def positionSpecAmended (startpos : Bool) (fen : Option UciFen) (moves : List UciMove) : String :=
  (if startpos then "position startpos"
   else match fen with
        | some f => "position fen " ++ f.as_str
        | none => "position ") ++
  (if moves = [] then "" else " moves " ++ spaceSeparated (moves.map UciMove.display))

/-- C5 as stated: `id name <name>` when a name is present, else
`id author <author>` when an author is present, else the bare string `"id"`. -/
def idSpec (name author : Option String) : String :=
  match name with
  | some n => "id name " ++ n
  | none =>
    match author with
    | some a => "id author " ++ a
    | none => "id"

/-- C5 amended: in the bare case (neither field present) the output is
`"id "` with a trailing space, not `"id"`. -/
def idSpecAmended (name author : Option String) : String :=
  match name with
  | some n => "id name " ++ n
  | none =>
    match author with
    | some a => "id author " ++ a
    | none => "id "

/-- C7's wording of move rendering: the from-square rendering, the to-square
rendering, then the promotion letter when a promotion piece is set and has
one. -/
def moveSpec (m : UciMove) : String :=
  m.fromSq.display ++ m.toSq.display ++
    (match m.promotion.bind UciPiece.as_char with
     | some c => String.singleton c
     | none => "")

/-! ## Helper lemmas -/

/-- Two characters with the same code point are equal. -/
theorem char_eq_of_toNat {a b : Char} (h : a.toNat = b.toNat) : a = b :=
  Char.ext (UInt32.ext h)

/-- `Char.ofNat` of a valid (below-surrogate) code point has that code point. -/
theorem char_toNat_ofNat {n : Nat} (h : n < 55296) : (Char.ofNat n).toNat = n := by
  unfold Char.ofNat
  rw [dif_pos (Or.inl h)]
  rfl

/-- ASCII lower-casing maps a character to a given lowercase letter exactly
when the character is that letter or its uppercase form. -/
theorem toLower_eq_iff (c t : Char) (h1 : 97 ≤ t.toNat) (h2 : t.toNat ≤ 122) :
    Char.toLower c = t ↔ c = t ∨ c.toNat + 32 = t.toNat := by
  simp only [Char.toLower]
  by_cases h : c.toNat ≥ 65 ∧ c.toNat ≤ 90
  · rw [if_pos h]
    have hv : (Char.ofNat (c.toNat + 32)).toNat = c.toNat + 32 :=
      char_toNat_ofNat (by omega)
    constructor
    · intro he
      exact Or.inr (by rw [← hv, he])
    · rintro (he | he)
      · subst he; omega
      · exact char_eq_of_toNat (by rw [hv, he])
  · rw [if_neg h]
    constructor
    · exact Or.inl
    · rintro (he | he)
      · exact he
      · exfalso; omega

/-- A string whose ASCII lower-casing is a one-lowercase-letter string is that
letter or its uppercase form. -/
theorem lower_eq_singleton {s : String} {t : Char} (h1 : 97 ≤ t.toNat) (h2 : t.toNat ≤ 122)
    (h : toAsciiLowercase s = String.singleton t) :
    s = String.singleton t ∨ s = String.singleton (Char.ofNat (t.toNat - 32)) := by
  obtain ⟨l⟩ := s
  have hd : l.map Char.toLower = [t] := congrArg String.data h
  cases l with
  | nil => exact absurd hd (by simp)
  | cons c rest =>
    cases rest with
    | cons c2 rest2 => exact absurd hd (by simp)
    | nil =>
      have hc : Char.toLower c = t := by simpa using hd
      rcases (toLower_eq_iff c t h1 h2).mp hc with he | he
      · exact Or.inl (by rw [he]; rfl)
      · refine Or.inr ?_
        have hce : c = Char.ofNat (t.toNat - 32) := by
          apply char_eq_of_toNat
          rw [char_toNat_ofNat (by omega)]
          omega
        rw [hce]
        rfl

/-- The `searchmoves` loop of the encoder renders each move followed by a
trailing space, the last move included. -/
theorem searchMoves_join (ms : List UciMove) :
    serializeSearchMoves ms = joinTrailingSpace (ms.map UciMove.display) := by
  induction ms with
  | nil => rfl
  | cons m rest ih => simp [serializeSearchMoves, joinTrailingSpace, ih]

/-- The indexed move loop of the `Position` arm renders the moves
space-separated, in order. -/
theorem moveList_spaceSeparated (ms : List UciMove) :
    serializeMoveList ms = spaceSeparated (ms.map UciMove.display) := by
  induction ms with
  | nil => rfl
  | cons m rest ih =>
    cases rest with
    | nil => rfl
    | cons m2 rest2 => simp [serializeMoveList, spaceSeparated, ih]

/-- The time-control block of the encoder agrees with the amended C1 token
description (with the `bt` spelling for `black_time`). -/
theorem timeAmended (t : UciTimeControl) :
    serializeTimeControl t = goSpecTimeAmended (some t) := by
  cases t with
  | Ponder => rfl
  | Infinite => rfl
  | MoveTime ms => rfl
  | TimeLeft wt bt wi bi mtg =>
    rcases wt <;> rcases bt <;> rcases wi <;> rcases bi <;> rcases mtg <;>
      (apply String.ext
       simp only [goSpecTimeAmended, serializeTimeControl, optTokenSpec,
         String.data_append, List.append_assoc]) <;> rfl

/-- The search-control block of the encoder agrees with the amended C1 token
description (with the extra space before `searchmoves`). -/
theorem searchAmended (s : UciSearchControl) :
    serializeSearchControl s = goSpecSearchAmended (some s) := by
  obtain ⟨ms, mate, depth, nodes⟩ := s
  rcases depth <;> rcases nodes <;> rcases mate <;> rcases ms with _ | ⟨m, rest⟩ <;>
    simp only [serializeSearchControl, goSpecSearchAmended, optTokenSpec, searchMoves_join] <;>
    (apply String.ext
     simp only [String.data_append, List.append_assoc]) <;> rfl

/-! ## Claim theorems -/

/-- C1 (counterexample): the claim's `Go` token description fails as stated.
With `black_time = 100` and one search move, the code yields
`"go bt 100  searchmoves e2e4 "` — a `bt` token and a double space before
`searchmoves` — while the claim predicts `"go btime 100 searchmoves e2e4 "`. -/
theorem go_spec_counterexample :
    UciMessage.serialize (.Go (some (.TimeLeft none (some 100) none none none))
        (some ⟨[⟨⟨'e', 2⟩, ⟨'e', 4⟩, none⟩], none, none, none⟩)) =
      "go bt 100  searchmoves e2e4 " ∧
    goSpec (some (.TimeLeft none (some 100) none none none))
        (some ⟨[⟨⟨'e', 2⟩, ⟨'e', 4⟩, none⟩], none, none, none⟩) =
      "go btime 100 searchmoves e2e4 " ∧
    UciMessage.serialize (.Go (some (.TimeLeft none (some 100) none none none))
        (some ⟨[⟨⟨'e', 2⟩, ⟨'e', 4⟩, none⟩], none, none, none⟩)) ≠
      goSpec (some (.TimeLeft none (some 100) none none none))
        (some ⟨[⟨⟨'e', 2⟩, ⟨'e', 4⟩, none⟩], none, none, none⟩) := by
  refine ⟨rfl, rfl, ?_⟩
  decide

/-- C1 (amended): `serialize` on a `Go` message builds `"go "`, then the
active time-control tokens in fixed order (`infinite` / `ponder` /
`movetime <ms>` / the present subset of `wtime`, `bt`, `winc`, `binc`,
`movestogo`, each token with a trailing space), then the active
search-control tokens `depth`, `nodes`, `mate` (each with a trailing space)
and finally — when `search_moves` is non-empty — one extra space, the token
`"searchmoves "` and each move with a trailing space, the last included;
absent sub-fields contribute no token. -/
theorem go_serialize_amended (tc : Option UciTimeControl) (sc : Option UciSearchControl) :
    UciMessage.serialize (.Go tc sc) = goSpecAmended tc sc := by
  rcases tc with _ | t <;> rcases sc with _ | s <;>
    simp only [UciMessage.serialize, goSpecAmended, timeAmended, searchAmended] <;> rfl

/-- C2: serializing a `Go` whose time control is a `TimeLeft` with
`black_time` present renders the black time-left token as `bt` followed by
the millisecond value and a space — not as the conventional `btime`. -/
theorem go_black_time_bt :
    (∀ (wt : Option Nat) (b : Nat) (wi bi mtg : Option Nat) (sc : Option UciSearchControl),
      UciMessage.serialize (.Go (some (.TimeLeft wt (some b) wi bi mtg)) sc) =
        btPrefix wt ++ ("bt " ++ toString b ++ " ") ++ btSuffix wi bi mtg sc) ∧
    UciMessage.serialize (.Go (some (.TimeLeft none (some 300000) none none none)) none) =
      "go bt 300000 " ∧
    UciMessage.serialize (.Go (some (.TimeLeft none (some 300000) none none none)) none) ≠
      "go btime 300000 " := by
  refine ⟨?_, rfl, by decide⟩
  intro wt b wi bi mtg sc
  rcases wt <;> rcases wi <;> rcases bi <;> rcases mtg <;> rcases sc with _ | s <;>
    (apply String.ext
     simp [UciMessage.serialize, serializeTimeControl, btPrefix, btSuffix, optTokenSpec,
       String.data_append, List.append_assoc])

/-- C3: `serialize` on a `Register` message returns exactly
`"register later"` whenever `later` is true, regardless of name and code;
otherwise it emits `register` followed by the present parts `name <name>`
then `code <code>`, with a single separating space between the two parts
exactly when both are present. -/
theorem register_serialize_spec (later : Bool) (name code : Option String) :
    UciMessage.serialize (.Register later name code) = registerSpec later name code := by
  rcases later <;> rcases name with _ | ⟨nd⟩ <;> rcases code with _ | ⟨cd⟩ <;>
    first
    | rfl
    | (apply String.ext
       simp [UciMessage.serialize, registerSpec, spaceSeparated, String.data_append,
         List.append_assoc])

/-- C4 (counterexample): the claim fails as stated. A `Position` with
`startpos = false`, no FEN and no moves serializes to `"position "` with a
trailing space, not to `"position"` alone as the claim predicts. -/
theorem position_spec_counterexample :
    UciMessage.serialize (.Position false none []) = "position " ∧
    positionSpec false none [] = "position" ∧
    UciMessage.serialize (.Position false none []) ≠ positionSpec false none [] := by
  refine ⟨rfl, rfl, ?_⟩
  decide

/-- C4 (amended): `serialize` on a `Position` message yields
`"position startpos"` when `startpos` is set, else `"position fen <fen>"`
when a FEN is present, else `"position "` with a trailing space; when
`moves` is non-empty it appends `" moves "` followed by the moves' text
renderings, space-separated, in order, regardless of the startpos/fen
state. -/
theorem position_serialize_amended (sp : Bool) (fen : Option UciFen) (mv : List UciMove) :
    UciMessage.serialize (.Position sp fen mv) = positionSpecAmended sp fen mv := by
  rcases sp <;> rcases fen with _ | ⟨⟨fd⟩⟩ <;> rcases mv with _ | ⟨m, rest⟩ <;>
    first
    | rfl
    | (apply String.ext
       simp [UciMessage.serialize, positionSpecAmended, moveList_spaceSeparated,
         UciFen.as_str, String.data_append, List.append_assoc])

/-- C5 (counterexample): the claim fails as stated. An `Id` with neither
name nor author serializes to `"id "` with a trailing space, not to the
bare string `"id"` as the claim predicts. -/
theorem id_spec_counterexample :
    UciMessage.serialize (.Id none none) = "id " ∧
    idSpec none none = "id" ∧
    UciMessage.serialize (.Id none none) ≠ idSpec none none := by
  refine ⟨rfl, rfl, ?_⟩
  decide

/-- C5 (amended): `serialize` on an `Id` message emits `"id name <name>"`
when the name field is present, else `"id author <author>"` when the author
field is present, else `"id "` with a trailing space; it never emits both
fields even when both are set (first-match-wins on name). -/
theorem id_serialize_amended (name author : Option String) :
    UciMessage.serialize (.Id name author) = idSpecAmended name author := by
  rcases name with _ | ⟨nd⟩ <;> rcases author with _ | ⟨ad⟩ <;> rfl

/-- C6: serializing a `Go` message with both `time_control` and
`search_control` absent yields exactly the string `"go "`. -/
theorem go_empty_serialize : UciMessage.serialize (.Go none none) = "go " := rfl

/-- C7: a move's text rendering is the from-square rendering, the to-square
rendering, then the promotion letter only when a promotion piece is set and
has a letter; a pawn promotion is never rendered; in particular
`a1a7` without promotion and `b4d6q` for a queen promotion. -/
theorem move_display_spec :
    (∀ m : UciMove, m.display = moveSpec m) ∧
    (∀ f t : UciSquare,
      (UciMove.mk f t (some .Pawn)).display = (UciMove.mk f t none).display) ∧
    (UciMove.mk ⟨'a', 1⟩ ⟨'a', 7⟩ none).display = "a1a7" ∧
    (UciMove.mk ⟨'b', 4⟩ ⟨'d', 6⟩ (some .Queen)).display = "b4d6q" := by
  refine ⟨?_, fun f t => rfl, rfl, rfl⟩
  intro m
  obtain ⟨f, t, pr⟩ := m
  rcases pr with _ | p
  · rfl
  · rcases p <;> rfl

/-- C8: `as_bool` and `as_i32` return `none` on every message that is not a
`SetOption`, on a `SetOption` without a value and on a value that fails to
parse; they return the parsed result otherwise, with `"true"` ↦ `true`,
`"false"` ↦ `false` and `"not-a-bool"` ↦ `none`; being total functions they
never raise. -/
theorem as_bool_as_i32_spec :
    (∀ m : UciMessage, (∀ n v, m ≠ .SetOption n v) → m.as_bool = none ∧ m.as_i32 = none) ∧
    (∀ n, (UciMessage.SetOption n none).as_bool = none ∧
      (UciMessage.SetOption n none).as_i32 = none) ∧
    (∀ n v, parseRustBool v = none → (UciMessage.SetOption n (some v)).as_bool = none) ∧
    (∀ n v, parseRustI32 v = none → (UciMessage.SetOption n (some v)).as_i32 = none) ∧
    (∀ n, (UciMessage.SetOption n (some "true")).as_bool = some true) ∧
    (∀ n, (UciMessage.SetOption n (some "false")).as_bool = some false) ∧
    (∀ n, (UciMessage.SetOption n (some "not-a-bool")).as_bool = none) := by
  refine ⟨?_, fun n => ⟨rfl, rfl⟩, ?_, ?_, fun n => rfl, fun n => rfl, fun n => rfl⟩
  · intro m h
    cases m with
    | SetOption n v => exact absurd rfl (h n v)
    | _ => exact ⟨rfl, rfl⟩
  · intro n v h
    simp [UciMessage.as_bool, h]
  · intro n v h
    simp [UciMessage.as_i32, h]

/-- C8 (witness): the non-`SetOption` and parse-failure hypotheses of
`as_bool_as_i32_spec` discharged at concrete inputs. -/
theorem as_bool_as_i32_witness :
    UciMessage.Uci.as_bool = none ∧ UciMessage.Uci.as_i32 = none ∧
    (UciMessage.SetOption "Ponder" (some "maybe")).as_bool = none ∧
    (UciMessage.SetOption "Threads" (some "4x")).as_i32 = none := by
  have h1 := as_bool_as_i32_spec.1 UciMessage.Uci (fun n v h => UciMessage.noConfusion h)
  refine ⟨h1.1, h1.2, ?_, ?_⟩
  · exact as_bool_as_i32_spec.2.2.1 "Ponder" "maybe" (by decide)
  · exact as_bool_as_i32_spec.2.2.2.1 "Threads" "4x" (by decide)

/-- C9: `direction` maps every engine-bound message constructor (`Uci`,
`Debug`, `IsReady`, `Register`, `Position`, `SetOption`, `UciNewGame`,
`Stop`, `PonderHit`, `Quit`, `Go`) to `GuiToEngine` and every GUI-bound one
(`Id`, `UciOk`, `ReadyOk`, `BestMove`) to `EngineToGui`. -/
theorem direction_spec :
    UciMessage.Uci.direction = .GuiToEngine ∧
    (∀ b, (UciMessage.Debug b).direction = .GuiToEngine) ∧
    UciMessage.IsReady.direction = .GuiToEngine ∧
    (∀ l n c, (UciMessage.Register l n c).direction = .GuiToEngine) ∧
    (∀ sp f mv, (UciMessage.Position sp f mv).direction = .GuiToEngine) ∧
    (∀ n v, (UciMessage.SetOption n v).direction = .GuiToEngine) ∧
    UciMessage.UciNewGame.direction = .GuiToEngine ∧
    UciMessage.Stop.direction = .GuiToEngine ∧
    UciMessage.PonderHit.direction = .GuiToEngine ∧
    UciMessage.Quit.direction = .GuiToEngine ∧
    (∀ tc sc, (UciMessage.Go tc sc).direction = .GuiToEngine) ∧
    (∀ n a, (UciMessage.Id n a).direction = .EngineToGui) ∧
    UciMessage.UciOk.direction = .EngineToGui ∧
    UciMessage.ReadyOk.direction = .EngineToGui ∧
    (∀ bm p, (UciMessage.BestMove bm p).direction = .EngineToGui) := by
  refine ⟨rfl, fun _ => rfl, rfl, fun _ _ _ => rfl, fun _ _ _ => rfl, fun _ _ => rfl,
    rfl, rfl, rfl, rfl, fun _ _ => rfl, fun _ _ => rfl, rfl, rfl, fun _ _ => rfl⟩

/-- C10: parsing the promotion letter (or its uppercase form) of any
non-pawn piece with `from_str` returns that piece, and `from_str` returns
an error on every string other than the twelve single-letter forms
`n/p/b/r/k/q` in either case. -/
theorem from_str_as_char_spec :
    (∀ (p : UciPiece) (c : Char), p.as_char = some c →
      UciPiece.from_str (String.singleton c) = .ok p ∧
      UciPiece.from_str (String.singleton c.toUpper) = .ok p) ∧
    (∀ s : String,
      s ∉ (["n", "p", "b", "r", "k", "q", "N", "P", "B", "R", "K", "Q"] : List String) →
      UciPiece.from_str s = .error ()) := by
  constructor
  · intro p c h
    cases p with
    | Pawn => exact absurd h (by simp [UciPiece.as_char])
    | Knight => injection h with h'; subst h'; exact ⟨rfl, rfl⟩
    | Bishop => injection h with h'; subst h'; exact ⟨rfl, rfl⟩
    | Rook => injection h with h'; subst h'; exact ⟨rfl, rfl⟩
    | Queen => injection h with h'; subst h'; exact ⟨rfl, rfl⟩
    | King => injection h with h'; subst h'; exact ⟨rfl, rfl⟩
  · intro s hs
    have hno : ∀ t : Char, 97 ≤ t.toNat → t.toNat ≤ 122 →
        String.singleton t ∈
          (["n", "p", "b", "r", "k", "q", "N", "P", "B", "R", "K", "Q"] : List String) →
        String.singleton (Char.ofNat (t.toNat - 32)) ∈
          (["n", "p", "b", "r", "k", "q", "N", "P", "B", "R", "K", "Q"] : List String) →
        toAsciiLowercase s ≠ String.singleton t := by
      intro t ht1 ht2 hm1 hm2 h
      rcases lower_eq_singleton ht1 ht2 h with h1 | h1
      · exact hs (h1 ▸ hm1)
      · exact hs (h1 ▸ hm2)
    have hn : toAsciiLowercase s ≠ "n" := hno 'n' (by decide) (by decide) (by decide) (by decide)
    have hp : toAsciiLowercase s ≠ "p" := hno 'p' (by decide) (by decide) (by decide) (by decide)
    have hb : toAsciiLowercase s ≠ "b" := hno 'b' (by decide) (by decide) (by decide) (by decide)
    have hr : toAsciiLowercase s ≠ "r" := hno 'r' (by decide) (by decide) (by decide) (by decide)
    have hk : toAsciiLowercase s ≠ "k" := hno 'k' (by decide) (by decide) (by decide) (by decide)
    have hq : toAsciiLowercase s ≠ "q" := hno 'q' (by decide) (by decide) (by decide) (by decide)
    simp only [UciPiece.from_str]
    rw [if_neg hn, if_neg hp, if_neg hb, if_neg hr, if_neg hk, if_neg hq]

/-- C10 (witness): the hypotheses of `from_str_as_char_spec` discharged at
the queen's letter and at the non-letter string `"xy"`. -/
theorem from_str_as_char_witness :
    UciPiece.as_char .Queen = some 'q' ∧
    UciPiece.from_str "q" = .ok .Queen ∧
    UciPiece.from_str "Q" = .ok .Queen ∧
    UciPiece.from_str "xy" = .error () := by
  refine ⟨rfl, ?_, ?_, ?_⟩
  · exact (from_str_as_char_spec.1 .Queen 'q' rfl).1
  · exact (from_str_as_char_spec.1 .Queen 'q' rfl).2
  · exact from_str_as_char_spec.2 "xy" (by decide)

end VampircUci
